import Mathlib

/-!
Job queue, worker loop, identifier allocator and configuration check of core-br.

A shallow embedding of `pkg/queue/queue.go` and `cmd/core-br/config/checks.go`.

* Go `int` is taken as a 64-bit two's complement integer, modelled by `Int`
  with explicit wrap-around.
* The `excursions` table behind the `*sql.DB` handle is a list of rows in
  insertion order; `id` is `TEXT PRIMARY KEY`, so `MAX(id)` is the maximum
  under string ordering and an insert of an existing `id` is rejected.
* The randomness of `rand.Intn`, and whether a round trip to the store fails,
  are inputs of each iteration (`Env`).
* What a worker prints and which SQL statements it issues are collected as a
  list of `Event`.
-/

namespace CoreBr

/-! ## Configuration check (`cmd/core-br/config`) -/

/-- Logging section of the configuration (`config.go`, `type Logging`). -/
structure Logging where
  Level : String
  Path : String
  Encoding : String
deriving DecidableEq, Repr

/-- Postgres section of the configuration (`config.go`, `type Postgres`). -/
structure Postgres where
  Host : String
  Port : Nat
  Username : String
  Password : String
  Database : String
deriving DecidableEq, Repr

/-- Configuration record (`config.go`, `type Config`). -/
structure Config where
  Name : String
  Version : String
  ConfigFile : String
  Postgres : Postgres
  Logging : Logging
deriving DecidableEq, Repr

/-- The two error values of `errors.go`. -/
inductive ConfigError where
  | ErrLoggingLevelInvalid
  | ErrLoggingEncodingInvalid
deriving DecidableEq, Repr

/-- Message carried by each error value (`errors.go`, lines 7 and 8). -/
def ConfigError.message : ConfigError → String
  | .ErrLoggingLevelInvalid => "logging.level is invalid, values: debug, info, warn, error, panic"
  | .ErrLoggingEncodingInvalid => "logging.encoding must be either json or console"

/-- The level names that the message of `ErrLoggingLevelInvalid` lists after `values:`. -/
def listedLevels : List String := ["debug", "info", "warn", "error", "panic"]

/-- The function `checkConfig` of `checks.go`; `none` stands for the `nil` error. -/
def checkConfig (config : Config) : Option ConfigError :=
  if config.Logging.Level = "debug" ∨ config.Logging.Level = "info" ∨
      config.Logging.Level = "warn" ∨ config.Logging.Level = "error" ∨
      config.Logging.Level = "fatal" then
    if config.Logging.Encoding = "json" ∨ config.Logging.Encoding = "console" then
      none
    else
      some .ErrLoggingEncodingInvalid
  else
    some .ErrLoggingLevelInvalid

/-- A configuration with the given logging level and encoding, other fields empty. -/
def configWith (level encoding : String) : Config :=
  { Name := "core-br", Version := "dev", ConfigFile := "./config.yaml",
    Postgres := { Host := "", Port := 0, Username := "", Password := "", Database := "" },
    Logging := { Level := level, Path := "", Encoding := encoding } }

/-! ## Identifier allocator (`queue.go`, lines 109 to 113) -/

/-- Width of Go `int` on the 64-bit targets this program is built for. -/
def intBits : Nat := 64

/-- Smallest value of a signed `intBits`-bit integer. -/
def minInt : Int := -(2 ^ (intBits - 1) : Int)

/-- Largest value of a signed `intBits`-bit integer. -/
def maxInt : Int := (2 ^ (intBits - 1) : Int) - 1

/-- Two's complement wrap-around of an integer into the range of Go `int`. -/
def wrapInt (x : Int) : Int :=
  (x - minInt) % (2 ^ intBits : Int) + minInt

/-- White space as the scanner of package `fmt` sees it (its `space` table),
the newline included. -/
def isSpace (c : Char) : Bool :=
  let n := c.toNat
  (9 ≤ n && n ≤ 13) || n = 32 || n = 133 || n = 160 || n = 5760 ||
  (8192 ≤ n && n ≤ 8202) || n = 8232 || n = 8233 || n = 8239 || n = 8287 || n = 12288

/-- Leading white space is skipped before a number by `Sscanf`; a newline there is
an error (`none`). -/
def skipSpace : List Char → Option (List Char)
  | [] => some []
  | c :: cs =>
    if c.toNat = 10 then none
    else if isSpace c then skipSpace cs
    else some (c :: cs)

/-- Value of a run of decimal digits, most significant first (`strconv.ParseInt`, base 10). -/
def digitsValue (ds : List Char) : Nat :=
  ds.foldl (fun acc d => 10 * acc + (d.toNat - 48)) 0

/-- The verb `%d` of `fmt.Sscanf` on the given input: skip white space, accept one optional
sign, take the longest run of decimal digits (only `0` to `9` belong to the token of
`%d`), and convert it with `strconv.ParseInt` in base 10. The result is `none` when the
scan reports an error: no input, no digit, or a value outside the range of `int`. -/
def scanInt (input : List Char) : Option Int :=
  match skipSpace input with
  | none => none
  | some [] => none
  | some (c :: cs) =>
    let neg := decide (c = '-')
    let rest := if c = '+' ∨ c = '-' then cs else c :: cs
    let tok := rest.takeWhile Char.isDigit
    if tok = [] then none
    else
      let v : Int := if neg then -(digitsValue tok : Int) else (digitsValue tok : Int)
      if minInt ≤ v ∧ v ≤ maxInt then some v else none

/-- The call `fmt.Sscanf(maxID, "%d", &nextIDInt)`: the target keeps its former value
`cur` when the scan fails (the error result is discarded by `work`). -/
def sscanfInt (maxID : String) (cur : Int) : Int :=
  (scanInt maxID.data).getD cur

/-- The call `fmt.Sprintf("%d", i)`. -/
def sprintfInt (i : Int) : String :=
  if i < 0 then "-" ++ Nat.repr i.natAbs else Nat.repr i.toNat

/-- Lines 110 to 113 of `queue.go`: `nextIDInt` starts at zero, is scanned from `maxID`,
incremented (with wrap-around) and printed. -/
def nextID (maxID : String) : String :=
  sprintfInt (wrapInt (sscanfInt maxID 0 + 1))

/-- A string is an integer literal: an optional minus sign followed by one or more
decimal digits, and nothing else. -/
def isIntLiteral (s : String) : Bool :=
  match s.data with
  | [] => false
  | c :: cs =>
    if c = '-' then (!cs.isEmpty) && cs.all Char.isDigit
    else (c :: cs).all Char.isDigit

/-! ## Job queue (`pkg/queue/queue.go`) -/

/-- Job container (`type Job`). -/
structure Job where
  ID : Int
  Data : String
deriving DecidableEq, Repr

/-- One row of table `excursions`: `id TEXT PRIMARY KEY, sticks_collected BIGINT`. -/
structure Row where
  id : String
  sticks_collected : Int
deriving DecidableEq, Repr

/-- Contents of table `excursions`, in insertion order. -/
abbrev Table := List Row

/-- Why a statement sent to the store failed. -/
inductive DBError where
  | connection
  | uniqueViolation
deriving DecidableEq, Repr

/-- The struct `JobQueue`: `queue` is the pending slice, `done` tells whether channel
`done` has been closed, `db` is the table behind the handle. The mutex `mu` has no
field: what it protects is expressed by which operations are single steps. -/
structure JobQueue where
  queue : List Job
  workers : Nat
  done : Bool
  db : Table
deriving DecidableEq, Repr

/-- The constructor `NewJobQueue`. -/
def NewJobQueue (workers : Nat) (dbConn : Table) : JobQueue :=
  { queue := [], workers := workers, done := false, db := dbConn }

/-- The method `AddJob` run without interference: `jq.queue = append(jq.queue, job)`. -/
def AddJob (jq : JobQueue) (job : Job) : JobQueue :=
  { jq with queue := jq.queue ++ [job] }

/-- A run-time panic of the Go program. -/
inductive Panic where
  | closeOfClosedChannel
deriving DecidableEq, Repr

/-- The method `Stop`: `close(jq.done)`, which panics on a channel that is already
closed. The sleep that follows changes no state. -/
def Stop (jq : JobQueue) : Except Panic JobQueue :=
  if jq.done then .error .closeOfClosedChannel else .ok { jq with done := true }

/-- Inputs of one iteration of `work` that the program does not control: whether the
query or the insert fails on the way to the store, and the value drawn for
`rand.Intn(10)` before reduction. -/
structure Env where
  queryFails : Bool
  execFails : Bool
  rnd : Nat
deriving DecidableEq, Repr

/-- What a worker prints and which statements it sends to the store. -/
inductive Event where
  | processing (worker : Nat) (job : Int)
  | queryMax
  | errMaxID
  | processed (worker : Nat) (job : Int) (nextID : String)
  | insert (id : String) (sticks : Int)
  | errRecord
  | exiting (worker : Nat)
deriving DecidableEq, Repr

/-- Strict lexicographic order on character sequences, characters compared by code
point. -/
def ltChars : List Char → List Char → Bool
  | [], [] => false
  | [], _ :: _ => true
  | _ :: _, [] => false
  | a :: as, b :: bs =>
    if a.toNat < b.toNat then true
    else if b.toNat < a.toNat then false
    else ltChars as bs

/-- String ordering of a `TEXT` column: lexicographic, not numeric. -/
def textLt (a b : String) : Bool :=
  ltChars a.data b.data

/-- Maximum of a list of strings under string ordering, `none` for no string. -/
def maxText : List String → Option String
  | [] => none
  | x :: xs =>
    match maxText xs with
    | none => some x
    | some m => some (if textLt m x then x else m)

/-- Result of `SELECT COALESCE(MAX(id), '0') FROM excursions` on the given table. -/
def selectMaxID (db : Table) : String :=
  (maxText (db.map Row.id)).getD "0"

/-- The query of line 102 together with `Scan(&maxID)`. -/
def queryMaxID (fails : Bool) (db : Table) : Except DBError String :=
  if fails then .error .connection else .ok (selectMaxID db)

/-- Whether the table holds a row with the given key. -/
def hasID (db : Table) (id : String) : Bool :=
  db.any (fun r => r.id = id)

/-- The statement `INSERT INTO excursions (id, sticks_collected) VALUES ($1, $2)`:
rejected when the key exists already. -/
def execInsert (fails : Bool) (db : Table) (id : String) (sticks : Int) :
    Except DBError Table :=
  if fails then .error .connection
  else if hasID db id then .error .uniqueViolation
  else .ok (db ++ [{ id := id, sticks_collected := sticks }])

/-- Lines 88 to 92 and 126 to 128 of `work`: under the mutex, take the head of the
pending slice when there is one. -/
def claim (jq : JobQueue) : Option Job × JobQueue :=
  match jq.queue with
  | [] => (none, jq)
  | job :: rest => (some job, { jq with queue := rest })

/-- The method `work` run by worker `id` without interference from other goroutines.
Returns the queue afterwards and what the iteration printed and sent to the store. -/
def work (env : Env) (id : Nat) (jq : JobQueue) : JobQueue × List Event :=
  match claim jq with
  | (none, jq1) => (jq1, [])
  | (some job, jq1) =>
    match queryMaxID env.queryFails jq1.db with
    | .error _ => (jq1, [.processing id job.ID, .queryMax, .errMaxID])
    | .ok maxID =>
      let next := nextID maxID
      let sticks : Int := ((env.rnd % 10 : Nat) : Int)
      match execInsert env.execFails jq1.db next sticks with
      | .error _ =>
        (jq1, [.processing id job.ID, .queryMax, .processed id job.ID next,
               .insert next sticks, .errRecord])
      | .ok db =>
        ({ jq1 with db := db },
         [.processing id job.ID, .queryMax, .processed id job.ID next, .insert next sticks])

/-- The method `worker`: one loop iteration per element of the list, each iteration
first looking at channel `done`. The loop of the source has no bound; the list is the
part of it that has been scheduled. -/
def worker (id : Nat) : List Env → JobQueue → JobQueue × List Event
  | [], jq => (jq, [])
  | env :: envs, jq =>
    if jq.done then (jq, [.exiting id])
    else
      let r := work env id jq
      let rs := worker id envs r.1
      (rs.1, r.2 ++ rs.2)

/-- An iteration in which neither the query nor the insert fails on the way. -/
def Env.healthy (rnd : Nat) : Env :=
  { queryFails := false, execFails := false, rnd := rnd }

/-- Jobs as `main` creates them: ids `0` to `n - 1`. -/
def seedJobs (n : Nat) : List Job :=
  (List.range n).map (fun (i : Nat) => { ID := Int.ofNat i, Data := "Job " ++ Nat.repr i })

/-- Inserts among the events. -/
def insertsOf (evs : List Event) : List Event :=
  evs.filter (fun e => match e with | .insert _ _ => true | _ => false)

/-- Queries for the maximum among the events. -/
def queriesOf (evs : List Event) : List Event :=
  evs.filter (fun e => match e with | .queryMax => true | _ => false)

/-- Jobs that the events report as taken up, in order. -/
def processingOf (evs : List Event) : List Int :=
  evs.filterMap (fun e => match e with | .processing _ j => some j | _ => none)

/-! ### Enqueue and claim as single steps -/

/-- A step on the pending sequence taken as a whole: an `AddJob`, or the locked
head removal of `work` by some worker. -/
inductive QStep where
  | add (job : Job)
  | claim
deriving DecidableEq, Repr

/-- Effect of one step on the queue and on the list of jobs claimed so far. -/
def qstep (st : JobQueue × List Job) : QStep → JobQueue × List Job
  | .add job => (AddJob st.1 job, st.2)
  | .claim =>
    match claim st.1 with
    | (none, jq1) => (jq1, st.2)
    | (some job, jq1) => (jq1, st.2 ++ [job])

/-- Effect of a sequence of steps. -/
def qrun (steps : List QStep) (st : JobQueue × List Job) : JobQueue × List Job :=
  steps.foldl qstep st

/-- Jobs enqueued by a sequence of steps, in order. -/
def enqueued (steps : List QStep) : List Job :=
  steps.filterMap (fun a => match a with | .add job => some job | .claim => none)

/-! ### Goroutines interleaved

The caller of `AddJob` and the workers run concurrently. A worker holds `jq.mu` from
its `Lock` to its `Unlock`, so its head removal is one step with respect to every other
holder of the mutex. `AddJob` never takes `jq.mu` (lines 54 to 56): its read of
`jq.queue` and its assignment to `jq.queue` are two steps that anything may
come between. The query and the insert of `work` are separate round trips to the
store, with the mutex released. -/

/-- Where a worker goroutine stands. -/
inductive Phase where
  | absent
  | top
  | inWork
  | claimed (job : Job)
  | allocated (job : Job) (next : String)
  | exited
deriving DecidableEq, Repr

/-- State of the whole program: the queue, where each worker stands, what each
caller that is inside `AddJob` has read (the slice it saw and the job it appends),
what has been printed and sent to the store, and whether the program has panicked. -/
structure Sys where
  jq : JobQueue
  phase : Nat → Phase
  snap : Nat → Option (List Job × Job)
  log : List Event
  panicked : Bool

/-- Replace the value of a function at one argument. -/
def setAt {α : Type} (f : Nat → α) (i : Nat) (a : α) : Nat → α :=
  fun j => if j = i then a else f j

/-- State after `NewJobQueue(workers, db)` and `StartProcessing()`: workers
`0` to `workers - 1` are at the head of their loop. -/
def Sys.start (workers : Nat) (db : Table) : Sys :=
  { jq := NewJobQueue workers db,
    phase := fun w => if w < workers then .top else .absent,
    snap := fun _ => none,
    log := [],
    panicked := false }

/-- One step of one goroutine. -/
inductive Action where
  | addLoad (caller : Nat) (job : Job)
  | addStore (caller : Nat)
  | stop
  | select (w : Nat)
  | claim (w : Nat)
  | query (w : Nat) (fails : Bool)
  | exec (w : Nat) (fails : Bool) (rnd : Nat)
deriving DecidableEq, Repr

/-- Effect of one step. A step that the goroutine is not in a position to take, and any
step after a panic, changes nothing.

* `addLoad`: `AddJob` evaluates `jq.queue` as the argument of `append`.
* `addStore`: `AddJob` assigns the appended slice to `jq.queue`.
* `stop`: `Stop` closes `done`.
* `select`: the `select` of `worker`: the closed channel wins over `default`.
* `claim`: lines 88 to 93 and 126 to 128 of `work`.
* `query`: lines 101 to 115 of `work`.
* `exec`: lines 117 to 125 of `work`. -/
def step (s : Sys) : Action → Sys
  | .addLoad c job =>
    if s.panicked then s
    else
      match s.snap c with
      | some _ => s
      | none => { s with snap := setAt s.snap c (some (s.jq.queue, job)) }
  | .addStore c =>
    if s.panicked then s
    else
      match s.snap c with
      | none => s
      | some (seen, job) =>
        { s with jq := { s.jq with queue := seen ++ [job] }, snap := setAt s.snap c none }
  | .stop =>
    if s.panicked then s
    else
      match Stop s.jq with
      | .ok jq1 => { s with jq := jq1 }
      | .error _ => { s with panicked := true }
  | .select w =>
    if s.panicked then s
    else
      match s.phase w with
      | .top =>
        if s.jq.done then
          { s with phase := setAt s.phase w .exited, log := s.log ++ [.exiting w] }
        else
          { s with phase := setAt s.phase w .inWork }
      | _ => s
  | .claim w =>
    if s.panicked then s
    else
      match s.phase w with
      | .inWork =>
        match claim s.jq with
        | (none, jq1) => { s with jq := jq1, phase := setAt s.phase w .top }
        | (some job, jq1) =>
          { s with jq := jq1, phase := setAt s.phase w (.claimed job),
                   log := s.log ++ [.processing w job.ID] }
      | _ => s
  | .query w fails =>
    if s.panicked then s
    else
      match s.phase w with
      | .claimed job =>
        match queryMaxID fails s.jq.db with
        | .error _ =>
          { s with phase := setAt s.phase w .top, log := s.log ++ [.queryMax, .errMaxID] }
        | .ok maxID =>
          { s with phase := setAt s.phase w (.allocated job (nextID maxID)),
                   log := s.log ++ [.queryMax, .processed w job.ID (nextID maxID)] }
      | _ => s
  | .exec w fails rnd =>
    if s.panicked then s
    else
      match s.phase w with
      | .allocated _ next =>
        match execInsert fails s.jq.db next ((rnd % 10 : Nat) : Int) with
        | .error _ =>
          { s with phase := setAt s.phase w .top,
                   log := s.log ++ [.insert next ((rnd % 10 : Nat) : Int), .errRecord] }
        | .ok db =>
          { s with jq := { s.jq with db := db }, phase := setAt s.phase w .top,
                   log := s.log ++ [.insert next ((rnd % 10 : Nat) : Int)] }
      | _ => s

/-- Effect of a schedule: the steps in the order they are taken. -/
def run (acts : List Action) (s : Sys) : Sys :=
  acts.foldl step s

/-- Number of jobs that worker `w` has taken from the pending sequence. -/
def claimsBy (w : Nat) (log : List Event) : Nat :=
  (log.filter (fun e => match e with
    | .processing v _ => decide (v = w)
    | _ => false)).length

/-- Number of jobs taken from the pending sequence by any worker. -/
def claimCount (log : List Event) : Nat :=
  (processingOf log).length

/-- Number of calls of `AddJob` that a schedule carries to their end. -/
def addCount (acts : List Action) : Nat :=
  (acts.filter (fun a => match a with | .addStore _ => true | _ => false)).length

/-- The schedule in which `main` enqueues `j0`, reads the slice for `j1`, worker 0
takes `j0`, and `main` then writes the slice back. -/
def staleAppend (j0 j1 : Job) : List Action :=
  [.addLoad 0 j0, .addStore 0, .addLoad 0 j1, .select 0, .claim 0, .addStore 0]

/-- The schedule in which two callers of `AddJob` read the empty slice one after the
other and then both write. -/
def lostAppend (j0 j1 : Job) : List Action :=
  [.addLoad 0 j0, .addLoad 1 j1, .addStore 0, .addStore 1]

/-- The first part of the race: `main` enqueues two jobs, workers 0 and 1 take one each,
and both read the maximum identifier. -/
def raceReads (j0 j1 : Job) : List Action :=
  [.addLoad 0 j0, .addStore 0, .addLoad 0 j1, .addStore 0,
   .select 0, .claim 0, .select 1, .claim 1,
   .query 0 false, .query 1 false]

/-- The second part of the race: worker 0 inserts, then worker 1 inserts. -/
def raceWrites (r0 r1 : Nat) : List Action :=
  [.exec 0 false r0, .exec 1 false r1]

/-- A schedule in which both workers read before either inserts. -/
def raceSchedule (j0 j1 : Job) (r0 r1 : Nat) : List Action :=
  raceReads j0 j1 ++ raceWrites r0 r1

/-- The state in which `main` has enqueued one job and then called `Stop`, with five
workers started and none of them past the head of its loop. -/
def stoppedEarly (j : Job) : Sys :=
  run [.addLoad 0 j, .addStore 0, .stop] (Sys.start 5 [])

/-! ### Keys of the table under a single worker -/

/-- Effect on the keys of the table, in insertion order, of one iteration of `work` that
takes a job and meets no failure on the way to the store: the key computed from the
maximum key is added unless it is there already. -/
def keysStep (keys : List String) : List String :=
  if keys.contains (nextID ((maxText keys).getD "0")) then keys
  else keys ++ [nextID ((maxText keys).getD "0")]

/-- The keys `1` to `10`, in this order. -/
def keysOneToTen : List String :=
  ["1", "2", "3", "4", "5", "6", "7", "8", "9", "10"]

/-! ## Configuration check: theorems -/

/-- What `checkConfig` accepts: the level must be one of debug, info, warn, error, fatal,
then the encoding one of json, console. -/
theorem checkConfig_eq (config : Config) :
    checkConfig config =
      if config.Logging.Level ∈ ["debug", "info", "warn", "error", "fatal"] then
        if config.Logging.Encoding ∈ ["json", "console"] then none
        else some .ErrLoggingEncodingInvalid
      else some .ErrLoggingLevelInvalid := by
  simp [checkConfig]

/-- C10: `checkConfig` does not follow the list of valid levels in the message of
`ErrLoggingLevelInvalid`. The level `panic`, which the message lists, is rejected with
that very error, whatever the encoding; the level `fatal`, which the message does not
list, is accepted. -/
theorem checkConfig_disagrees_with_message :
    ConfigError.ErrLoggingLevelInvalid.message
      = "logging.level is invalid, values: " ++ ", ".intercalate listedLevels ∧
    ("panic" ∈ listedLevels ∧
      ∀ enc : String, checkConfig (configWith "panic" enc) = some .ErrLoggingLevelInvalid) ∧
    ("fatal" ∉ listedLevels ∧ checkConfig (configWith "fatal" "json") = none) := by
  refine ⟨by decide, ⟨by decide, ?_⟩, by decide, by decide⟩
  intro enc
  simp [checkConfig, configWith]

/-! ## Stop -/

/-- C7, as stated, fails: after a first `Stop` on a fresh queue, a second `Stop`
panics with a close of a closed channel. -/
theorem Stop_twice_panics :
    ∃ jq1, Stop (NewJobQueue 5 []) = .ok jq1 ∧ Stop jq1 = .error .closeOfClosedChannel :=
  ⟨{ queue := [], workers := 5, done := true, db := [] }, rfl, rfl⟩

/-- C7, amended: on every queue whose shutdown signal is not yet raised, whatever is
pending, `Stop` returns, raises the signal and leaves the pending sequence, the store
and the worker count as they were; a further `Stop` on the resulting queue panics with a
close of a closed channel. Any `Stop` that returns has done exactly that. -/
theorem Stop_once (jq : JobQueue) (h : jq.done = false) :
    Stop jq = .ok { queue := jq.queue, workers := jq.workers, done := true, db := jq.db } ∧
    Stop { queue := jq.queue, workers := jq.workers, done := true, db := jq.db }
      = .error .closeOfClosedChannel ∧
    (∀ jq1 : JobQueue, Stop jq = .ok jq1 →
      jq1.done = true ∧ jq1.queue = jq.queue ∧ jq1.db = jq.db ∧ jq1.workers = jq.workers ∧
      Stop jq1 = .error .closeOfClosedChannel) := by
  have h1 : Stop jq
      = .ok { queue := jq.queue, workers := jq.workers, done := true, db := jq.db } := by
    simp [Stop, h]
  refine ⟨h1, by simp [Stop], ?_⟩
  intro jq1 h2
  rw [h1] at h2
  have h3 : jq1 = { queue := jq.queue, workers := jq.workers, done := true, db := jq.db } := by
    injection h2 with h2
    exact h2.symm
  subst h3
  simp [Stop]

/-- Witness of `Stop_once` on a queue with two jobs pending and one record stored. -/
theorem Stop_once_witness :
    ({ queue := [⟨0, "Job 0"⟩, ⟨1, "Job 1"⟩], workers := 5, done := false,
       db := [⟨"1", 3⟩] } : JobQueue).done = false ∧
    Stop { queue := [⟨0, "Job 0"⟩, ⟨1, "Job 1"⟩], workers := 5, done := false,
           db := [⟨"1", 3⟩] }
      = .ok { queue := [⟨0, "Job 0"⟩, ⟨1, "Job 1"⟩], workers := 5, done := true,
              db := [⟨"1", 3⟩] } ∧
    Stop { queue := [⟨0, "Job 0"⟩, ⟨1, "Job 1"⟩], workers := 5, done := true,
           db := [⟨"1", 3⟩] }
      = .error .closeOfClosedChannel :=
  ⟨rfl,
   (Stop_once { queue := [⟨0, "Job 0"⟩, ⟨1, "Job 1"⟩], workers := 5, done := false,
                db := [⟨"1", 3⟩] } rfl).1,
   (Stop_once { queue := [⟨0, "Job 0"⟩, ⟨1, "Job 1"⟩], workers := 5, done := false,
                db := [⟨"1", 3⟩] } rfl).2.1⟩

/-! ## One iteration of `work` -/

/-- C3: on a pending sequence `j :: rest`, `work` takes up exactly `j` (its first
event reports `j`, and no other job is reported) and leaves `rest` pending; on the
empty pending sequence it changes nothing and issues no statement at all. -/
theorem work_claims_head (env : Env) (id workers : Nat) (done : Bool) (db : Table)
    (j : Job) (rest : List Job) :
    ((work env id { queue := j :: rest, workers := workers, done := done, db := db }).1.queue
        = rest ∧
      (work env id { queue := j :: rest, workers := workers, done := done, db := db }).2.head?
        = some (.processing id j.ID) ∧
      processingOf
        (work env id { queue := j :: rest, workers := workers, done := done, db := db }).2
        = [j.ID]) ∧
    (work env id { queue := [], workers := workers, done := done, db := db }
        = ({ queue := [], workers := workers, done := done, db := db }, []) ∧
      queriesOf (work env id { queue := [], workers := workers, done := done, db := db }).2
        = [] ∧
      insertsOf (work env id { queue := [], workers := workers, done := done, db := db }).2
        = []) := by
  refine ⟨?_, by simp [work, claim, queriesOf, insertsOf]⟩
  simp only [work, claim]
  cases hq : queryMaxID env.queryFails db with
  | error e => simp [processingOf]
  | ok maxID =>
    simp only
    cases hx : execInsert env.execFails db (nextID maxID) ((env.rnd % 10 : Nat) : Int) with
    | error e => simp [processingOf]
    | ok db1 => simp [processingOf]

/-! ## Enqueue and claim as single steps: conservation -/

/-- One step keeps the claimed jobs followed by the pending ones equal to what they
were, followed by the job the step enqueues, if any. -/
theorem qstep_conserves (st : JobQueue × List Job) (a : QStep) :
    (qstep st a).2 ++ (qstep st a).1.queue = st.2 ++ st.1.queue ++ enqueued [a] := by
  cases a with
  | add job => simp [qstep, AddJob, enqueued]
  | claim =>
    cases hq : st.1.queue with
    | nil => simp [qstep, claim, hq, enqueued]
    | cons j rest => simp [qstep, claim, hq, enqueued]

/-- A run of steps keeps the same balance, from any state. -/
theorem qrun_conserves (steps : List QStep) :
    ∀ st : JobQueue × List Job,
      (qrun steps st).2 ++ (qrun steps st).1.queue = st.2 ++ st.1.queue ++ enqueued steps := by
  induction steps with
  | nil => intro st; simp [qrun, enqueued]
  | cons a steps ih =>
    intro st
    have h1 : qrun (a :: steps) st = qrun steps (qstep st a) := by simp [qrun]
    have h2 : enqueued (a :: steps) = enqueued [a] ++ enqueued steps := by
      simp [enqueued, List.filterMap_cons]
      cases a <;> simp
    rw [h1, ih, qstep_conserves, h2]
    simp

/-- C4: from the empty queue, after any sequence of `AddJob` steps and claim steps, the
jobs claimed so far, in claim order, followed by the pending sequence are exactly the
jobs enqueued so far, in enqueue order. Hence every job occurs as often among the claimed
and pending jobs together as it was enqueued (none claimed twice, none lost), the claimed
jobs are a prefix of the enqueued ones, and the pending length is the enqueued count minus
the claimed count. -/
theorem claimed_then_pending_eq_enqueued (steps : List QStep) (workers : Nat) (db : Table) :
    (qrun steps (NewJobQueue workers db, [])).2 ++
        (qrun steps (NewJobQueue workers db, [])).1.queue = enqueued steps ∧
    (∀ j : Job, (qrun steps (NewJobQueue workers db, [])).2.count j +
        (qrun steps (NewJobQueue workers db, [])).1.queue.count j = (enqueued steps).count j) ∧
    (qrun steps (NewJobQueue workers db, [])).2.length ≤ (enqueued steps).length ∧
    (qrun steps (NewJobQueue workers db, [])).1.queue.length =
        (enqueued steps).length - (qrun steps (NewJobQueue workers db, [])).2.length := by
  have h := qrun_conserves steps (NewJobQueue workers db, [])
  simp only [NewJobQueue, List.append_nil, List.nil_append] at h
  simp only [NewJobQueue]
  refine ⟨h, ?_, ?_, ?_⟩
  · intro j
    rw [← h, List.count_append]
  · rw [← h, List.length_append]
    omega
  · rw [← h, List.length_append]
    omega

/-! ## Persistence failures -/

/-- C5: on a pending sequence `j :: rest`, when reading the maximum identifier fails,
`work` returns with `rest` pending, the store unchanged, and no insert issued; when the
read succeeds and the insert fails (a failure on the way, or the computed identifier
exists already), `work` returns with `rest` pending, the store unchanged, and exactly one
insert issued. In both cases the loop of `worker` goes on to its next iteration from that
state: the job is in neither the pending sequence nor the store. -/
theorem work_failure_loses_job (env : Env) (id workers : Nat) (db : Table) (j : Job)
    (rest : List Job) (envs : List Env) :
    (env.queryFails = true →
      work env id { queue := j :: rest, workers := workers, done := false, db := db }
        = ({ queue := rest, workers := workers, done := false, db := db },
           [.processing id j.ID, .queryMax, .errMaxID]) ∧
      insertsOf
        (work env id { queue := j :: rest, workers := workers, done := false, db := db }).2
        = [] ∧
      worker id (env :: envs) { queue := j :: rest, workers := workers, done := false, db := db }
        = ((worker id envs { queue := rest, workers := workers, done := false, db := db }).1,
           [.processing id j.ID, .queryMax, .errMaxID] ++
           (worker id envs { queue := rest, workers := workers, done := false, db := db }).2)) ∧
    (env.queryFails = false →
      (env.execFails = true ∨ hasID db (nextID (selectMaxID db)) = true) →
      work env id { queue := j :: rest, workers := workers, done := false, db := db }
        = ({ queue := rest, workers := workers, done := false, db := db },
           [.processing id j.ID, .queryMax, .processed id j.ID (nextID (selectMaxID db)),
            .insert (nextID (selectMaxID db)) ((env.rnd % 10 : Nat) : Int), .errRecord]) ∧
      insertsOf
        (work env id { queue := j :: rest, workers := workers, done := false, db := db }).2
        = [.insert (nextID (selectMaxID db)) ((env.rnd % 10 : Nat) : Int)] ∧
      worker id (env :: envs) { queue := j :: rest, workers := workers, done := false, db := db }
        = ((worker id envs { queue := rest, workers := workers, done := false, db := db }).1,
           [.processing id j.ID, .queryMax, .processed id j.ID (nextID (selectMaxID db)),
            .insert (nextID (selectMaxID db)) ((env.rnd % 10 : Nat) : Int), .errRecord] ++
           (worker id envs { queue := rest, workers := workers, done := false, db := db }).2)) := by
  constructor
  · intro hq
    have hw : work env id { queue := j :: rest, workers := workers, done := false, db := db }
        = ({ queue := rest, workers := workers, done := false, db := db },
           [.processing id j.ID, .queryMax, .errMaxID]) := by
      simp [work, claim, queryMaxID, hq]
    refine ⟨hw, ?_, ?_⟩
    · rw [hw]; simp [insertsOf]
    · simp only [worker, hw]
      simp
  · intro hq hx
    have he : execInsert env.execFails db (nextID (selectMaxID db)) ((env.rnd % 10 : Nat) : Int)
        = .error (if env.execFails then .connection else .uniqueViolation) := by
      unfold execInsert
      rcases hx with hx | hx
      · simp [hx]
      · by_cases hf : env.execFails = true
        · simp [hf]
        · simp [hf, hx]
    have hw : work env id { queue := j :: rest, workers := workers, done := false, db := db }
        = ({ queue := rest, workers := workers, done := false, db := db },
           [.processing id j.ID, .queryMax, .processed id j.ID (nextID (selectMaxID db)),
            .insert (nextID (selectMaxID db)) ((env.rnd % 10 : Nat) : Int), .errRecord]) := by
      simp only [work, claim, queryMaxID, hq]
      simp only [Bool.false_eq_true, if_false]
      rw [he]
    refine ⟨hw, ?_, ?_⟩
    · rw [hw]; simp [insertsOf]
    · simp only [worker, hw]
      simp

/-- Witness of `work_failure_loses_job`: a failed read, a failed insert on the way, and
an insert rejected because the key `10` exists while the maximum under string ordering
is `9`. -/
theorem work_failure_loses_job_witness :
    (work { queryFails := true, execFails := false, rnd := 3 } 0
        { queue := [⟨7, "a"⟩, ⟨8, "b"⟩], workers := 1, done := false, db := [] }
      = ({ queue := [⟨8, "b"⟩], workers := 1, done := false, db := [] },
         [.processing 0 7, .queryMax, .errMaxID])) ∧
    (work { queryFails := false, execFails := true, rnd := 3 } 0
        { queue := [⟨7, "a"⟩, ⟨8, "b"⟩], workers := 1, done := false, db := [] }
      = ({ queue := [⟨8, "b"⟩], workers := 1, done := false, db := [] },
         [.processing 0 7, .queryMax, .processed 0 7 (nextID (selectMaxID [])),
          .insert (nextID (selectMaxID [])) ((3 % 10 : Nat) : Int), .errRecord])) ∧
    (work { queryFails := false, execFails := false, rnd := 3 } 0
        { queue := [⟨7, "a"⟩, ⟨8, "b"⟩], workers := 1, done := false,
          db := [⟨"9", 1⟩, ⟨"10", 2⟩] }
      = ({ queue := [⟨8, "b"⟩], workers := 1, done := false, db := [⟨"9", 1⟩, ⟨"10", 2⟩] },
         [.processing 0 7, .queryMax,
          .processed 0 7 (nextID (selectMaxID [⟨"9", 1⟩, ⟨"10", 2⟩])),
          .insert (nextID (selectMaxID [⟨"9", 1⟩, ⟨"10", 2⟩])) ((3 % 10 : Nat) : Int),
          .errRecord])) :=
  ⟨((work_failure_loses_job { queryFails := true, execFails := false, rnd := 3 } 0 1 []
      ⟨7, "a"⟩ [⟨8, "b"⟩] []).1 rfl).1,
   ((work_failure_loses_job { queryFails := false, execFails := true, rnd := 3 } 0 1 []
      ⟨7, "a"⟩ [⟨8, "b"⟩] []).2 rfl (Or.inl rfl)).1,
   ((work_failure_loses_job { queryFails := false, execFails := false, rnd := 3 } 0 1
      [⟨"9", 1⟩, ⟨"10", 2⟩] ⟨7, "a"⟩ [⟨8, "b"⟩] []).2 rfl (Or.inr (by decide))).1⟩

/-! ## Identifier allocator: theorems -/

/-- Every digit character produced for a value below ten is a decimal digit and
carries that value. -/
theorem digitChar_spec :
    ∀ k, k < 10 → (Nat.digitChar k).isDigit = true ∧ (Nat.digitChar k).toNat - 48 = k := by
  decide

/-- Appending one digit multiplies the value by ten and adds the digit. -/
theorem digitsValue_snoc (ds : List Char) (d : Char) :
    digitsValue (ds ++ [d]) = 10 * digitsValue ds + (d.toNat - 48) := by
  simp [digitsValue, List.foldl_append]

/-- With enough fuel, the digit loop of `Nat.repr` puts in front of its accumulator a
non-empty run of decimal digits whose value is the number. -/
theorem toDigitsCore_spec :
    ∀ (fuel n : Nat) (acc : List Char), n < fuel →
      ∃ ds, Nat.toDigitsCore 10 fuel n acc = ds ++ acc ∧ ds ≠ [] ∧
        (∀ c ∈ ds, c.isDigit = true) ∧ digitsValue ds = n := by
  intro fuel
  induction fuel with
  | zero => intro n acc h; omega
  | succ fuel ih =>
    intro n acc h
    have hd := digitChar_spec (n % 10) (Nat.mod_lt n (by decide))
    by_cases h0 : n / 10 = 0
    · refine ⟨[Nat.digitChar (n % 10)], ?_, by simp, ?_, ?_⟩
      · simp [Nat.toDigitsCore, h0]
      · intro c hc
        simp at hc
        rw [hc]; exact hd.1
      · have hn : n % 10 = n := by omega
        have hv : digitsValue [Nat.digitChar (n % 10)] = (Nat.digitChar (n % 10)).toNat - 48 := by
          simp [digitsValue]
        rw [hv, hd.2, hn]
    · have hlt : n / 10 < fuel := by omega
      obtain ⟨ds, h1, h2, h3, h4⟩ := ih (n / 10) (Nat.digitChar (n % 10) :: acc) hlt
      refine ⟨ds ++ [Nat.digitChar (n % 10)], ?_, by simp, ?_, ?_⟩
      · simp [Nat.toDigitsCore, h0, h1]
      · intro c hc
        rcases List.mem_append.1 hc with hc | hc
        · exact h3 c hc
        · simp at hc
          rw [hc]; exact hd.1
      · rw [digitsValue_snoc, h4, hd.2]
        omega

/-- The decimal string of a natural number is a non-empty run of decimal digits whose
value is the number. -/
theorem repr_data_spec (n : Nat) :
    (Nat.repr n).data ≠ [] ∧ (∀ c ∈ (Nat.repr n).data, c.isDigit = true) ∧
    digitsValue (Nat.repr n).data = n := by
  obtain ⟨ds, h1, h2, h3, h4⟩ := toDigitsCore_spec (n + 1) n [] (Nat.lt_succ_self n)
  have hr : (Nat.repr n).data = ds := by
    simp [Nat.repr, List.asString, Nat.toDigits, h1]
  rw [hr]
  exact ⟨h2, h3, h4⟩

/-- A decimal digit has a code point from 48 to 57. -/
theorem isDigit_toNat (c : Char) (h : c.isDigit = true) : 48 ≤ c.toNat ∧ c.toNat ≤ 57 := by
  simp only [Char.isDigit, Bool.and_eq_true, decide_eq_true_eq] at h
  exact h

/-- A decimal digit is neither a newline, nor white space, nor a sign. -/
theorem isDigit_not_skipped (c : Char) (h : c.isDigit = true) :
    c.toNat ≠ 10 ∧ isSpace c = false ∧ c ≠ '+' ∧ c ≠ '-' := by
  have hr := isDigit_toNat c h
  refine ⟨by omega, ?_, ?_, ?_⟩
  · simp only [isSpace, Bool.or_eq_false_iff, Bool.and_eq_false_imp, decide_eq_true_eq,
      decide_eq_false_iff_not]
    omega
  · intro hc
    rw [hc] at hr
    revert hr
    decide
  · intro hc
    rw [hc] at hr
    revert hr
    decide

/-- The token collected at the head of a run of digits followed by nothing, or by text
that starts with a full stop, is that run of digits. -/
theorem takeWhile_digits (ds tl : List Char) (hds : ∀ c ∈ ds, c.isDigit = true)
    (htl : tl = [] ∨ tl.head? = some '.') :
    (ds ++ tl).takeWhile Char.isDigit = ds := by
  rw [List.takeWhile_append_of_pos hds]
  rcases htl with htl | htl
  · simp [htl]
  · cases tl with
    | nil => simp
    | cons t ts =>
      simp only [List.head?_cons, Option.some.injEq] at htl
      subst htl
      have hdot : Char.isDigit '.' = false := by decide
      simp [List.takeWhile, hdot]

/-- The scan of `%d` on a non-empty run of digits, followed by nothing or by text that
starts with a full stop, yields the value of the digits when it fits in an `int`. -/
theorem scanInt_digits (ds tl : List Char) (hne : ds ≠ [])
    (hds : ∀ c ∈ ds, c.isDigit = true) (htl : tl = [] ∨ tl.head? = some '.')
    (hfit : (digitsValue ds : Int) ≤ maxInt) :
    scanInt (ds ++ tl) = some (digitsValue ds : Int) := by
  cases ds with
  | nil => exact absurd rfl hne
  | cons c cs =>
    have hc := isDigit_not_skipped c (hds c (by simp))
    have htw := takeWhile_digits (c :: cs) tl hds htl
    have hmin : minInt ≤ (digitsValue (c :: cs) : Int) := by
      have : minInt ≤ 0 := by decide
      omega
    have hskip : skipSpace (c :: cs ++ tl) = some (c :: (cs ++ tl)) := by
      simp [skipSpace, hc.1, hc.2.1]
    unfold scanInt
    rw [hskip]
    simp only [hc.2.2.1, hc.2.2.2, or_self, if_false, decide_False, Bool.false_eq_true]
    rw [← List.cons_append, htw]
    simp [hmin, hfit]

/-- The decimal string of a natural number has only decimal digits, at least one. -/
theorem isIntLiteral_repr (n : Nat) : isIntLiteral (Nat.repr n) = true := by
  obtain ⟨hne, hds, _⟩ := repr_data_spec n
  unfold isIntLiteral
  cases hd : (Nat.repr n).data with
  | nil => exact absurd hd hne
  | cons c cs =>
    rw [hd] at hds
    have hc := isDigit_not_skipped c (hds c (by simp))
    simp only [hc.2.2.2, if_false]
    rw [List.all_eq_true]
    exact hds

/-- What `Sprintf` prints for an integer is an integer literal. -/
theorem isIntLiteral_sprintfInt (i : Int) : isIntLiteral (sprintfInt i) = true := by
  unfold sprintfInt
  by_cases h : i < 0
  · simp only [h, if_true]
    obtain ⟨hne, hds, _⟩ := repr_data_spec i.natAbs
    unfold isIntLiteral
    have hdata : ("-" ++ Nat.repr i.natAbs).data = '-' :: (Nat.repr i.natAbs).data := by
      rw [String.data_append]
      rfl
    rw [hdata]
    simp only [if_true, Bool.and_eq_true, Bool.not_eq_true', List.isEmpty_eq_false,
      List.all_eq_true]
    exact ⟨hne, hds⟩
  · simp only [h, if_false]
    exact isIntLiteral_repr _

/-- C1, as stated, fails at the largest `int`: from the stored maximum
`9223372036854775807` the allocator computes `-9223372036854775808`, which is not the
decimal string of `9223372036854775808`. -/
theorem nextID_overflow :
    nextID (Nat.repr 9223372036854775807) = "-9223372036854775808" ∧
    nextID (Nat.repr 9223372036854775807) ≠ Nat.repr (9223372036854775807 + 1) := by
  decide

/-- C1, amended: for every `n` with `n + 1 < 2 ^ 63`, from a stored maximum that is the
decimal string of `n`, alone or followed by a full stop and any further text, the
allocator computes the decimal string of `n + 1`; and from any stored maximum at all it
computes an integer literal: an optional minus sign and decimal digits, no fractional
suffix. -/
theorem nextID_spec (n : Nat) (frac : String) (h : n + 1 < 2 ^ 63) :
    nextID (Nat.repr n) = Nat.repr (n + 1) ∧
    nextID (Nat.repr n ++ "." ++ frac) = Nat.repr (n + 1) ∧
    ∀ maxID : String, isIntLiteral (nextID maxID) = true := by
  obtain ⟨hne, hds, hval⟩ := repr_data_spec n
  have hmax : maxInt = 2 ^ 63 - 1 := by decide
  have hminv : minInt = -(2 ^ 63) := by decide
  have hfit : (digitsValue (Nat.repr n).data : Int) ≤ maxInt := by
    rw [hval, hmax]
    omega
  have hout : sprintfInt (wrapInt ((n : Int) + 1)) = Nat.repr (n + 1) := by
    have hw : wrapInt ((n : Int) + 1) = ((n + 1 : Nat) : Int) := by
      unfold wrapInt
      rw [hminv]
      have h64 : ((2 : Int) ^ intBits) = 2 ^ 64 := by decide
      rw [h64]
      push_cast
      omega
    rw [hw]
    unfold sprintfInt
    have hnn : ¬ (((n + 1 : Nat) : Int) < 0) := by omega
    simp only [hnn, if_false, Int.toNat_ofNat]
  refine ⟨?_, ?_, fun maxID => isIntLiteral_sprintfInt _⟩
  · have hs := scanInt_digits (Nat.repr n).data [] hne hds (Or.inl rfl) hfit
    rw [List.append_nil, hval] at hs
    unfold nextID sscanfInt
    rw [hs]
    exact hout
  · have hdata : (Nat.repr n ++ "." ++ frac).data = (Nat.repr n).data ++ ('.' :: frac.data) := by
      rw [String.data_append, String.data_append]
      simp
    have hs := scanInt_digits (Nat.repr n).data ('.' :: frac.data) hne hds (Or.inr rfl) hfit
    rw [hval] at hs
    unfold nextID sscanfInt
    rw [hdata, hs]
    exact hout

/-- Witness of `nextID_spec`: the stored maxima `12`, `12.2.3` give `13`. -/
theorem nextID_spec_witness :
    nextID (Nat.repr 12) = Nat.repr (12 + 1) ∧
    nextID (Nat.repr 12 ++ "." ++ "2.3") = Nat.repr (12 + 1) ∧
    ∀ maxID : String, isIntLiteral (nextID maxID) = true :=
  nextID_spec 12 "2.3" (by decide)

/-! ## Single worker -/

/-- Membership of a key in the table, read off the list of keys. -/
theorem hasID_eq_contains (db : Table) (id : String) :
    hasID db id = (db.map Row.id).contains id := by
  induction db with
  | nil => simp [hasID]
  | cons r db ih =>
    simp only [hasID, List.any_cons, List.map_cons, List.contains_cons] at ih ⊢
    rw [ih]
    by_cases h : r.id = id
    · simp [h]
    · have h2 : ¬ id = r.id := fun e => h e.symm
      simp [h, h2]

/-- One iteration of `work` that takes a job and meets no failure on the way changes
the keys of the table by `keysStep`, removes the head of the pending sequence and leaves
the shutdown signal alone. -/
theorem work_healthy (rnd id : Nat) (jq : JobQueue) (j : Job) (rest : List Job)
    (hq : jq.queue = j :: rest) :
    (work (Env.healthy rnd) id jq).1.db.map Row.id = keysStep (jq.db.map Row.id) ∧
    (work (Env.healthy rnd) id jq).1.queue = rest ∧
    (work (Env.healthy rnd) id jq).1.done = jq.done := by
  have hsel : selectMaxID jq.db = (maxText (jq.db.map Row.id)).getD "0" := rfl
  have hw : work (Env.healthy rnd) id jq =
      if hasID jq.db (nextID (selectMaxID jq.db)) then
        ({ jq with queue := rest },
          [.processing id j.ID, .queryMax, .processed id j.ID (nextID (selectMaxID jq.db)),
           .insert (nextID (selectMaxID jq.db)) ((rnd % 10 : Nat) : Int), .errRecord])
      else
        ({ jq with queue := rest,
                   db := jq.db ++ [{ id := nextID (selectMaxID jq.db),
                                     sticks_collected := ((rnd % 10 : Nat) : Int) }] },
          [.processing id j.ID, .queryMax, .processed id j.ID (nextID (selectMaxID jq.db)),
           .insert (nextID (selectMaxID jq.db)) ((rnd % 10 : Nat) : Int)]) := by
    simp only [work, claim, hq, queryMaxID, execInsert, Env.healthy, Bool.false_eq_true,
      if_false]
    split_ifs <;> rfl
  rw [hw]
  unfold keysStep
  rw [← hsel, ← hasID_eq_contains]
  by_cases hh : hasID jq.db (nextID (selectMaxID jq.db)) = true
  · simp [hh]
  · simp [hh]

/-- A single worker that runs one iteration per job, with no failure on the way and the
shutdown signal never raised, applies `keysStep` once per job and empties the pending
sequence. -/
theorem worker_healthy (id : Nat) :
    ∀ (rnds : List Nat) (jq : JobQueue), jq.done = false → rnds.length ≤ jq.queue.length →
      (worker id (rnds.map Env.healthy) jq).1.db.map Row.id
        = keysStep^[rnds.length] (jq.db.map Row.id) ∧
      (worker id (rnds.map Env.healthy) jq).1.queue = jq.queue.drop rnds.length := by
  intro rnds
  induction rnds with
  | nil => intro jq _ _; simp [worker]
  | cons r rnds ih =>
    intro jq hd hlen
    cases hq : jq.queue with
    | nil => rw [hq] at hlen; simp at hlen
    | cons j rest =>
      obtain ⟨h1, h2, h3⟩ := work_healthy r id jq j rest hq
      have hlen2 : rnds.length ≤ (work (Env.healthy r) id jq).1.queue.length := by
        rw [h2]; rw [hq] at hlen; simpa using hlen
      obtain ⟨i1, i2⟩ := ih (work (Env.healthy r) id jq).1 (by rw [h3]; exact hd) hlen2
      simp only [List.map_cons, worker, hd, Bool.false_eq_true, if_false, List.length_cons,
        Function.iterate_succ, Function.comp_apply, List.drop_succ_cons]
      rw [i1, i2, h1, h2]
      exact ⟨rfl, rfl⟩

/-- Ten applications of `keysStep` to the empty table give the keys `1` to `10`, and
one more changes nothing: the maximum key under string ordering is `9`, and `10` exists. -/
theorem keysStep_stuck :
    keysStep^[10] [] = keysOneToTen ∧ keysStep keysOneToTen = keysOneToTen ∧
    maxText keysOneToTen = some "9" ∧ nextID "9" = "10" := by
  set_option maxRecDepth 100000 in decide

/-- C2: with one worker, an empty store and no failure on the way to the store,
processing `n` jobs one after another for any `n` from 11 on persists only the ten records
with the keys `1` to `10`. Every later job reads the maximum `9` (string ordering),
computes `10` again and its insert is rejected; all `n` jobs have left the pending
sequence. -/
theorem single_worker_stuck_at_ten (jobs : List Job) (rnds : List Nat)
    (hlen : rnds.length = jobs.length) (h11 : 11 ≤ jobs.length) :
    (worker 0 (rnds.map Env.healthy)
        { queue := jobs, workers := 1, done := false, db := [] }).1.db.map Row.id
      = keysOneToTen ∧
    (worker 0 (rnds.map Env.healthy)
        { queue := jobs, workers := 1, done := false, db := [] }).1.db.length = 10 ∧
    (worker 0 (rnds.map Env.healthy)
        { queue := jobs, workers := 1, done := false, db := [] }).1.queue = [] := by
  obtain ⟨h1, h2⟩ := worker_healthy 0 rnds
    { queue := jobs, workers := 1, done := false, db := [] } rfl (by simp [hlen])
  have hk : keysStep^[rnds.length] [] = keysOneToTen := by
    obtain ⟨k, hk⟩ : ∃ k, rnds.length = k + 10 := ⟨rnds.length - 10, by omega⟩
    rw [hk, Function.iterate_add_apply, keysStep_stuck.1]
    exact Function.iterate_fixed keysStep_stuck.2.1 k
  simp only [List.map_nil] at h1
  rw [hk] at h1
  refine ⟨h1, ?_, ?_⟩
  · have := congrArg List.length h1
    simpa [keysOneToTen] using this
  · rw [h2, hlen]
    simp

/-- Up to ten jobs the single worker does allocate `1`, `2`, and so on, one record per
job: the keys after `n` jobs are the decimal strings of `1` to `n`. -/
theorem single_worker_first_ten (jobs : List Job) (rnds : List Nat)
    (hlen : rnds.length = jobs.length) (h10 : jobs.length ≤ 10) :
    (worker 0 (rnds.map Env.healthy)
        { queue := jobs, workers := 1, done := false, db := [] }).1.db.map Row.id
      = (List.range jobs.length).map (fun i => Nat.repr (i + 1)) := by
  obtain ⟨h1, _⟩ := worker_healthy 0 rnds
    { queue := jobs, workers := 1, done := false, db := [] } rfl (by simp [hlen])
  simp only [List.map_nil] at h1
  rw [h1, hlen]
  generalize jobs.length = n at h10
  have hall : ∀ k, k < 11 → keysStep^[k] [] = (List.range k).map (fun i => Nat.repr (i + 1)) := by
    set_option maxRecDepth 100000 in decide
  exact hall n (by omega)

/-- Witness of `single_worker_stuck_at_ten`: eleven jobs as `main` would create them. -/
theorem single_worker_stuck_at_ten_witness :
    (worker 0 ((List.replicate 11 3).map Env.healthy)
        { queue := seedJobs 11, workers := 1, done := false, db := [] }).1.db.map Row.id
      = keysOneToTen ∧
    (worker 0 ((List.replicate 11 3).map Env.healthy)
        { queue := seedJobs 11, workers := 1, done := false, db := [] }).1.db.length = 10 ∧
    (worker 0 ((List.replicate 11 3).map Env.healthy)
        { queue := seedJobs 11, workers := 1, done := false, db := [] }).1.queue = [] :=
  single_worker_stuck_at_ten (seedJobs 11) (List.replicate 11 3) (by decide) (by decide)

/-! ## Shutdown -/

/-- Claims by a worker add up over a concatenation of logs. -/
theorem claimsBy_append (w : Nat) (l1 l2 : List Event) :
    claimsBy w (l1 ++ l2) = claimsBy w l1 + claimsBy w l2 := by
  simp [claimsBy, List.filter_append]

/-- The head removal changes neither the shutdown signal nor the store. -/
theorem claim_keeps (jq : JobQueue) :
    (claim jq).2.done = jq.done ∧ (claim jq).2.db = jq.db := by
  unfold claim
  cases jq.queue <;> exact ⟨rfl, rfl⟩

/-- A worker that is at the head of its loop or has exited is in no other phase. -/
theorem phase_ne_of_top_or_exited (s : Sys) (w v : Nat) (p : Phase)
    (hp : s.phase w = .top ∨ s.phase w = .exited) (hv : s.phase v = p)
    (hne : p ≠ .top ∧ p ≠ .exited) : v ≠ w := by
  intro e
  subst e
  rcases hp with hp | hp
  · exact hne.1 (hv.symm.trans hp)
  · exact hne.2 (hv.symm.trans hp)

/-- Once the shutdown signal is raised and worker `w` is at the head of its loop or has
exited, no step of any goroutine lowers the signal, moves `w` anywhere but to its exit,
or makes `w` take a job. -/
theorem step_after_shutdown (s : Sys) (w : Nat) (a : Action)
    (hd : s.jq.done = true) (hp : s.phase w = .top ∨ s.phase w = .exited) :
    (step s a).jq.done = true ∧
    ((step s a).phase w = .top ∨ (step s a).phase w = .exited) ∧
    claimsBy w (step s a).log = claimsBy w s.log := by
  cases a with
  | addLoad c job =>
    simp only [step]
    split_ifs
    · exact ⟨hd, hp, rfl⟩
    · split <;> exact ⟨hd, hp, rfl⟩
  | addStore c =>
    simp only [step]
    split_ifs
    · exact ⟨hd, hp, rfl⟩
    · split <;> exact ⟨hd, hp, rfl⟩
  | stop =>
    simp only [step, Stop, hd, if_true]
    split_ifs <;> exact ⟨hd, hp, rfl⟩
  | select v =>
    simp only [step]
    split_ifs with hpan
    · exact ⟨hd, hp, rfl⟩
    · split
      · refine ⟨hd, ?_, ?_⟩
        · simp only [setAt]
          split_ifs
          · exact Or.inr rfl
          · exact hp
        · simp [claimsBy_append, claimsBy]
      · exact ⟨hd, hp, rfl⟩
  | claim v =>
    simp only [step]
    split_ifs with hpan
    · exact ⟨hd, hp, rfl⟩
    · split
      · rename_i hv
        have hne : v ≠ w := phase_ne_of_top_or_exited s w v _ hp hv (by simp)
        have hwv : ¬ w = v := fun e => hne e.symm
        have hk := claim_keeps s.jq
        split
        · rename_i jq1 hc
          rw [hc] at hk
          refine ⟨by rw [← hd]; exact hk.1, ?_, rfl⟩
          simp only [setAt, hwv, if_false]
          exact hp
        · rename_i job jq1 hc
          rw [hc] at hk
          refine ⟨by rw [← hd]; exact hk.1, ?_, ?_⟩
          · simp only [setAt, hwv, if_false]
            exact hp
          · simp [claimsBy_append, claimsBy, hne]
      · exact ⟨hd, hp, rfl⟩
  | query v fails =>
    simp only [step]
    split_ifs with hpan
    · exact ⟨hd, hp, rfl⟩
    · split
      · rename_i job hv
        have hne : v ≠ w := phase_ne_of_top_or_exited s w v _ hp hv (by simp)
        have hwv : ¬ w = v := fun e => hne e.symm
        split
        · refine ⟨hd, ?_, ?_⟩
          · simp only [setAt, hwv, if_false]
            exact hp
          · simp [claimsBy_append, claimsBy]
        · refine ⟨hd, ?_, ?_⟩
          · simp only [setAt, hwv, if_false]
            exact hp
          · simp [claimsBy_append, claimsBy]
      · exact ⟨hd, hp, rfl⟩
  | exec v fails rnd =>
    simp only [step]
    split_ifs with hpan
    · exact ⟨hd, hp, rfl⟩
    · split
      · rename_i job next hv
        have hne : v ≠ w := phase_ne_of_top_or_exited s w v _ hp hv (by simp)
        have hwv : ¬ w = v := fun e => hne e.symm
        split
        · refine ⟨hd, ?_, ?_⟩
          · simp only [setAt, hwv, if_false]
            exact hp
          · simp [claimsBy_append, claimsBy]
        · refine ⟨hd, ?_, ?_⟩
          · simp only [setAt, hwv, if_false]
            exact hp
          · simp [claimsBy_append, claimsBy]
      · exact ⟨hd, hp, rfl⟩

/-- The invariant of `step_after_shutdown` along a whole schedule. -/
theorem run_after_shutdown (acts : List Action) (w : Nat) :
    ∀ s : Sys, s.jq.done = true → (s.phase w = .top ∨ s.phase w = .exited) →
      (run acts s).jq.done = true ∧
      ((run acts s).phase w = .top ∨ (run acts s).phase w = .exited) ∧
      claimsBy w (run acts s).log = claimsBy w s.log := by
  induction acts with
  | nil => intro s hd hp; exact ⟨hd, hp, rfl⟩
  | cons a acts ih =>
    intro s hd hp
    obtain ⟨h1, h2, h3⟩ := step_after_shutdown s w a hd hp
    obtain ⟨i1, i2, i3⟩ := ih (step s a) h1 h2
    have hr : run (a :: acts) s = run acts (step s a) := by simp [run]
    rw [hr]
    exact ⟨i1, i2, i3.trans h3⟩

/-- C6: `Stop` raises the shutdown signal, and from any state in which the signal is
raised and worker `w` is at the head of its loop (its next shutdown check comes after the
signal), along every schedule of all goroutines: the signal stays raised, `w` takes no
further job from the pending sequence and is never anywhere but at that check or exited;
the check itself makes `w` exit without touching the queue. A worker that holds a job
claimed earlier still goes on to query and insert. -/
theorem no_claim_after_shutdown (s : Sys) (w : Nat) (acts : List Action)
    (hd : s.jq.done = true) (hp : s.phase w = .top) :
    (∀ s0 : Sys, s0.panicked = false → (step s0 .stop).jq.done = true) ∧
    (run acts s).jq.done = true ∧
    claimsBy w (run acts s).log = claimsBy w s.log ∧
    ((run acts s).phase w = .top ∨ (run acts s).phase w = .exited) ∧
    (s.panicked = false →
      (step s (.select w)).phase w = .exited ∧ (step s (.select w)).jq = s.jq ∧
      (step s (.select w)).log = s.log ++ [.exiting w]) ∧
    (∀ (v : Nat) (job : Job) (rnd : Nat), s.panicked = false → s.phase v = .claimed job →
      (step s (.query v false)).phase v = .allocated job (nextID (selectMaxID s.jq.db)) ∧
      insertsOf (step (step s (.query v false)) (.exec v false rnd)).log
        = insertsOf s.log ++
          [.insert (nextID (selectMaxID s.jq.db)) ((rnd % 10 : Nat) : Int)]) := by
  obtain ⟨h1, h2, h3⟩ := run_after_shutdown acts w s hd (Or.inl hp)
  refine ⟨?_, h1, h3, h2, ?_, ?_⟩
  · intro s0 hpan
    simp only [step, hpan, Bool.false_eq_true, if_false, Stop]
    by_cases h0 : s0.jq.done = true
    · simp [h0]
    · simp [h0]
  · intro hpan
    simp [step, hpan, hp, hd, setAt]
  · intro v job rnd hpan hv
    have hq : step s (.query v false) =
        { s with phase := setAt s.phase v (.allocated job (nextID (selectMaxID s.jq.db))),
                 log := s.log ++ [.queryMax,
                   .processed v job.ID (nextID (selectMaxID s.jq.db))] } := by
      simp [step, hpan, hv, queryMaxID]
    rw [hq]
    refine ⟨by simp [setAt], ?_⟩
    simp only [step, hpan, Bool.false_eq_true, if_false, setAt, if_true]
    cases execInsert false s.jq.db (nextID (selectMaxID s.jq.db)) ((rnd % 10 : Nat) : Int) with
    | error e => simp [insertsOf, List.filter_append]
    | ok db1 => simp [insertsOf, List.filter_append]

/-- Witness of `no_claim_after_shutdown`: `main` enqueues a job and stops before any
worker has looked at the queue; workers 0 and 1 then run, and the job stays pending. -/
theorem no_claim_after_shutdown_witness :
    (stoppedEarly ⟨0, "Job 0"⟩).jq.done = true ∧
    (stoppedEarly ⟨0, "Job 0"⟩).phase 0 = .top ∧
    (run [.select 0, .claim 0, .select 1, .claim 1] (stoppedEarly ⟨0, "Job 0"⟩)).jq.done
      = true ∧
    claimsBy 0 (run [.select 0, .claim 0, .select 1, .claim 1] (stoppedEarly ⟨0, "Job 0"⟩)).log
      = claimsBy 0 (stoppedEarly ⟨0, "Job 0"⟩).log :=
  ⟨rfl, rfl,
   (no_claim_after_shutdown (stoppedEarly ⟨0, "Job 0"⟩) 0
      [.select 0, .claim 0, .select 1, .claim 1] rfl rfl).2.1,
   (no_claim_after_shutdown (stoppedEarly ⟨0, "Job 0"⟩) 0
      [.select 0, .claim 0, .select 1, .claim 1] rfl rfl).2.2.1⟩

/-! ## `AddJob` against concurrent goroutines -/

/-- C8: `AddJob` takes no mutex, and the pending sequence ends up with a length other
than enqueued minus claimed. In the schedule `staleAppend`, `main` has read the slice
holding `j0`, worker 0 takes `j0`, and the write of `main` puts `j0` back: two jobs
enqueued, one claimed, two pending, and `j0` is then claimed a second time by worker 1.
In the schedule `lostAppend` two callers both read the empty slice: two jobs enqueued,
none claimed, one pending. -/
theorem AddJob_takes_no_lock (j0 j1 : Job) :
    ((run (staleAppend j0 j1) (Sys.start 5 [])).jq.queue = [j0, j1] ∧
      addCount (staleAppend j0 j1) = 2 ∧
      processingOf (run (staleAppend j0 j1) (Sys.start 5 [])).log = [j0.ID] ∧
      (run (staleAppend j0 j1) (Sys.start 5 [])).jq.queue.length ≠
        addCount (staleAppend j0 j1)
          - claimCount (run (staleAppend j0 j1) (Sys.start 5 [])).log ∧
      processingOf
        (run (staleAppend j0 j1 ++ [.select 1, .claim 1]) (Sys.start 5 [])).log
        = [j0.ID, j0.ID]) ∧
    ((run (lostAppend j0 j1) (Sys.start 5 [])).jq.queue = [j1] ∧
      addCount (lostAppend j0 j1) = 2 ∧
      claimCount (run (lostAppend j0 j1) (Sys.start 5 [])).log = 0 ∧
      (run (lostAppend j0 j1) (Sys.start 5 [])).jq.queue.length ≠
        addCount (lostAppend j0 j1)
          - claimCount (run (lostAppend j0 j1) (Sys.start 5 [])).log) := by
  refine ⟨⟨rfl, rfl, rfl, ?_, rfl⟩, rfl, rfl, rfl, ?_⟩
  · show (2 : Nat) ≠ 2 - 1
    decide
  · show (1 : Nat) ≠ 2 - 0
    decide

/-! ## The interleaved steps are the steps of `AddJob` and `work` -/

/-- A call of `AddJob` whose two steps nothing comes between has the effect of `AddJob`. -/
theorem addLoad_addStore_eq_AddJob (s : Sys) (c : Nat) (job : Job)
    (hpan : s.panicked = false) (hs : s.snap c = none) :
    (run [.addLoad c job, .addStore c] s).jq = AddJob s.jq job := by
  simp [run, step, hpan, hs, setAt, AddJob]

/-- The three steps of an iteration of a worker, with nothing between them, have the
effect of `work` on the queue and print what `work` prints. -/
theorem steps_eq_work (s : Sys) (w : Nat) (env : Env)
    (hpan : s.panicked = false) (hph : s.phase w = .inWork) :
    (run [.claim w, .query w env.queryFails, .exec w env.execFails env.rnd] s).jq
      = (work env w s.jq).1 ∧
    (run [.claim w, .query w env.queryFails, .exec w env.execFails env.rnd] s).log
      = s.log ++ (work env w s.jq).2 := by
  cases hq : s.jq.queue with
  | nil =>
    have hc : claim s.jq = (none, s.jq) := by simp [claim, hq]
    simp [run, step, hpan, hph, hc, work, setAt]
  | cons j rest =>
    have hc : claim s.jq = (some j, { s.jq with queue := rest }) := by simp [claim, hq]
    cases hf : env.queryFails with
    | true =>
      simp [run, step, hpan, hph, hc, work, setAt, queryMaxID, hf]
    | false =>
      cases hx : execInsert env.execFails s.jq.db (nextID (selectMaxID s.jq.db))
          ((env.rnd % 10 : Nat) : Int) with
      | error e =>
        push_cast at hx
        simp [run, step, hpan, hph, hc, work, setAt, queryMaxID, hf, hx]
      | ok db1 =>
        push_cast at hx
        simp [run, step, hpan, hph, hc, work, setAt, queryMaxID, hf, hx]

/-! ## The allocator race -/

/-- A key that has just been appended to the table is in the table. -/
theorem hasID_append_self (db : Table) (id : String) (sticks : Int) :
    hasID (db ++ [{ id := id, sticks_collected := sticks }]) id = true := by
  simp [hasID]

/-- C9: in the schedule `raceSchedule`, from any contents `db` of the store, workers 0 and
1 each hold one claimed job, both read the maximum identifier before either inserts and
both compute the same next identifier. Then the insert of worker 1 is rejected in every
case, the two inserts carry the same key, and the store gains one record at most for the
two jobs: exactly the record of worker 0 when the key is new. From the empty store the
single record has the key `1`. -/
theorem allocator_race (db : Table) (j0 j1 : Job) (r0 r1 : Nat) :
    ((run (raceReads j0 j1) (Sys.start 5 db)).phase 0
        = .allocated j0 (nextID (selectMaxID db)) ∧
      (run (raceReads j0 j1) (Sys.start 5 db)).phase 1
        = .allocated j1 (nextID (selectMaxID db)) ∧
      (run (raceReads j0 j1) (Sys.start 5 db)).jq.db = db ∧
      (run (raceReads j0 j1) (Sys.start 5 db)).jq.queue = []) ∧
    ((run (raceSchedule j0 j1 r0 r1) (Sys.start 5 db)).jq.db
        = (if hasID db (nextID (selectMaxID db)) then db
           else db ++ [{ id := nextID (selectMaxID db),
                         sticks_collected := ((r0 % 10 : Nat) : Int) }]) ∧
      insertsOf (run (raceSchedule j0 j1 r0 r1) (Sys.start 5 db)).log
        = [.insert (nextID (selectMaxID db)) ((r0 % 10 : Nat) : Int),
           .insert (nextID (selectMaxID db)) ((r1 % 10 : Nat) : Int)] ∧
      (run (raceSchedule j0 j1 r0 r1) (Sys.start 5 db)).log.getLast? = some .errRecord ∧
      processingOf (run (raceSchedule j0 j1 r0 r1) (Sys.start 5 db)).log = [j0.ID, j1.ID]) ∧
    (run (raceSchedule j0 j1 r0 r1) (Sys.start 5 [])).jq.db
        = [{ id := "1", sticks_collected := ((r0 % 10 : Nat) : Int) }] := by
  refine ⟨?_, ?_, ?_⟩
  · simp [run, raceReads, step, Sys.start, NewJobQueue, claim, queryMaxID, setAt]
  · by_cases h : hasID db (nextID (selectMaxID db)) = true
    · simp [run, raceSchedule, raceReads, raceWrites, step, Sys.start, NewJobQueue, claim,
        queryMaxID, execInsert, setAt, h, insertsOf, processingOf]
    · have h2 := hasID_append_self db (nextID (selectMaxID db)) ((r0 % 10 : Nat) : Int)
      simp only [Bool.not_eq_true] at h
      push_cast at h2
      simp [run, raceSchedule, raceReads, raceWrites, step, Sys.start, NewJobQueue, claim,
        queryMaxID, execInsert, setAt, h, h2, insertsOf, processingOf]
  · have hk : nextID (selectMaxID []) = "1" := by decide
    simp [run, raceSchedule, raceReads, raceWrites, step, Sys.start, NewJobQueue, claim,
      queryMaxID, execInsert, setAt, hk, hasID]

end CoreBr
